import Mathlib

/-!
Verification development for the polymarket-btc scanner (TypeScript sources).

The embedding models the JavaScript `Map` objects of the source as
association lists (`mapSet` replaces the value in place, as `Map.set` does;
`mapDel` removes the entry; `mapGet` is `Map.get`), JavaScript numbers as
rationals, and the callback-driven classes as state-passing functions that
return the events their callbacks would have received.  A thrown
`TypeError` (the `!` non-null assertions of the source) is modelled as
`Option.none`.
-/

universe u v

/-- `Map.get`: the value stored at key `k`, if any. -/
def mapGet {K : Type u} {V : Type v} [DecidableEq K] : List (K × V) → K → Option V
  | [], _ => none
  | e :: t, k => if e.1 = k then some e.2 else mapGet t k

/-- `Map.set`: replace the value at `k` in place, else append the new entry. -/
def mapSet {K : Type u} {V : Type v} [DecidableEq K] : List (K × V) → K → V → List (K × V)
  | [], k, v => [(k, v)]
  | e :: t, k, v => if e.1 = k then (k, v) :: t else e :: mapSet t k v

/-- `Map.delete`: remove every entry stored at `k`. -/
def mapDel {K : Type u} {V : Type v} [DecidableEq K] (m : List (K × V)) (k : K) :
    List (K × V) :=
  m.filter (fun e => decide (e.1 ≠ k))

theorem mapGet_mapSet_self {K : Type u} {V : Type v} [DecidableEq K]
    (m : List (K × V)) (k : K) (v : V) : mapGet (mapSet m k v) k = some v := by
  induction m with
  | nil => simp [mapSet, mapGet]
  | cons e t ih =>
    by_cases h : e.1 = k
    · simp [mapSet, h, mapGet]
    · simp [mapSet, h, mapGet, ih]

theorem mapGet_mapSet_ne {K : Type u} {V : Type v} [DecidableEq K]
    (m : List (K × V)) (k k' : K) (v : V) (h : k ≠ k') :
    mapGet (mapSet m k v) k' = mapGet m k' := by
  induction m with
  | nil => simp [mapSet, mapGet, h]
  | cons e t ih =>
    by_cases he : e.1 = k
    · simp [mapSet, he, mapGet, h]
    · simp only [mapSet, if_neg he, mapGet]
      by_cases he' : e.1 = k'
      · simp [he']
      · simp [he', ih]

theorem mapGet_mapDel_self {K : Type u} {V : Type v} [DecidableEq K]
    (m : List (K × V)) (k : K) : mapGet (mapDel m k) k = none := by
  induction m with
  | nil => simp [mapDel, mapGet]
  | cons e t ih =>
    by_cases h : e.1 = k
    · simpa [mapDel, h] using ih
    · simpa [mapDel, mapGet, h] using ih

theorem mapGet_mapDel_ne {K : Type u} {V : Type v} [DecidableEq K]
    (m : List (K × V)) (k k' : K) (h : k ≠ k') :
    mapGet (mapDel m k) k' = mapGet m k' := by
  induction m with
  | nil => simp [mapDel, mapGet]
  | cons e t ih =>
    simp only [mapDel] at ih ⊢
    rw [List.filter_cons]
    by_cases he : e.1 = k
    · have hd : (decide (e.1 ≠ k)) = false := by simp [he]
      rw [hd, if_neg (by simp), ih]
      have hne : ¬ e.1 = k' := fun hk => h (he ▸ hk)
      simp [mapGet, hne]
    · have hd : (decide (e.1 ≠ k)) = true := by simp [he]
      rw [hd, if_pos rfl]
      by_cases he' : e.1 = k'
      · simp [mapGet, he']
      · simp only [mapGet, if_neg he']
        simpa using ih

theorem mem_mapSet {K : Type u} {V : Type v} [DecidableEq K]
    (m : List (K × V)) (k : K) (v : V) (x : K × V) (hx : x ∈ mapSet m k v) :
    x ∈ m ∨ x = (k, v) := by
  induction m with
  | nil => simpa [mapSet] using hx
  | cons e t ih =>
    by_cases h : e.1 = k
    · simp only [mapSet, if_pos h, List.mem_cons] at hx
      rcases hx with hx | hx
      · exact Or.inr hx
      · exact Or.inl (List.mem_cons_of_mem _ hx)
    · simp only [mapSet, if_neg h, List.mem_cons] at hx
      rcases hx with hx | hx
      · exact Or.inl (hx ▸ List.mem_cons_self _ _)
      · rcases ih hx with h' | h'
        · exact Or.inl (List.mem_cons_of_mem _ h')
        · exact Or.inr h'

theorem mem_mapDel {K : Type u} {V : Type v} [DecidableEq K]
    (m : List (K × V)) (k : K) (x : K × V) (hx : x ∈ mapDel m k) :
    x ∈ m ∧ x.1 ≠ k := by
  have := List.of_mem_filter hx
  exact ⟨List.mem_of_mem_filter hx, by simpa using this⟩

/-!
## Order book (src/src/websocket.ts, class OrderBook)

Prices and sizes travel as decimal strings on the wire and are `parseFloat`ed
before the book methods run; the embedding takes them post-parse, as
rationals.  The `asks` and `bids` members are JavaScript Maps from price to
size, modelled as association lists with `Map` semantics.
-/

/-- The two price-to-size maps of an `OrderBook` instance. -/
structure Book where
  asks : List (ℚ × ℚ)
  bids : List (ℚ × ℚ)
deriving DecidableEq

/-- `new OrderBook()`: both maps empty. -/
def OrderBook.empty : Book := ⟨[], []⟩

/-- One side of `applySnapshot`: clear the map, then insert every entry whose
parsed size is strictly positive. -/
def OrderBook.snapshotSide (entries : List (ℚ × ℚ)) : List (ℚ × ℚ) :=
  entries.foldl (fun m e => if 0 < e.2 then mapSet m e.1 e.2 else m) []

/-- `OrderBook.applySnapshot`: `this.asks.clear()` followed by the filtered
inserts, and the same for `bids` — the previous contents of `book` are
discarded entirely. -/
def OrderBook.applySnapshot (_book : Book) (asks bids : List (ℚ × ℚ)) : Book :=
  { asks := OrderBook.snapshotSide asks, bids := OrderBook.snapshotSide bids }

/-- `OrderBook.applyChange`: a SELL delta edits the ask map, a BUY delta the
bid map, any other side string is ignored; size `0` deletes the price level,
any other size is stored as-is. -/
def OrderBook.applyChange (book : Book) (price : ℚ) (side : String) (size : ℚ) : Book :=
  if side = "SELL" then
    { book with asks := if size = 0 then mapDel book.asks price else mapSet book.asks price size }
  else if side = "BUY" then
    { book with bids := if size = 0 then mapDel book.bids price else mapSet book.bids price size }
  else book

/-- One entry of a `price_change` message, post-parse. -/
structure BookChange where
  price : ℚ
  side : String
  size : ℚ
deriving DecidableEq

/-- The `for (const c of changes)` loop of `handleMessage`. -/
def OrderBook.applyChanges (book : Book) (cs : List BookChange) : Book :=
  cs.foldl (fun b c => OrderBook.applyChange b c.price c.side c.size) book

/-- The `for (const price of keys) if (price < best) best = price` scan of
`getBestAsk`, started at the first key (the source starts at `Infinity`;
over the whole key list both yield the minimum key). -/
def foldlMin (l : List (ℚ × ℚ)) (a : ℚ) : ℚ :=
  l.foldl (fun best e => min best e.1) a

/-- The matching maximum scan of `getBestBid` (source starts at `-Infinity`). -/
def foldlMax (l : List (ℚ × ℚ)) (a : ℚ) : ℚ :=
  l.foldl (fun best e => max best e.1) a

/-- `OrderBook.getBestAsk`: `null` on an empty ask map, else the minimum ask
price.  (The source's final `best === Infinity` guard cannot fire once the
map is non-empty with finite keys.) -/
def OrderBook.getBestAsk (book : Book) : Option ℚ :=
  match book.asks with
  | [] => none
  | e :: rest => some (foldlMin rest e.1)

/-- `OrderBook.getBestBid`: `null` on an empty bid map, else the maximum bid
price. -/
def OrderBook.getBestBid (book : Book) : Option ℚ :=
  match book.bids with
  | [] => none
  | e :: rest => some (foldlMax rest e.1)

theorem foldlMin_le_init (l : List (ℚ × ℚ)) (a : ℚ) : foldlMin l a ≤ a := by
  induction l generalizing a with
  | nil => simp [foldlMin]
  | cons e t ih =>
    calc foldlMin (e :: t) a = foldlMin t (min a e.1) := rfl
    _ ≤ min a e.1 := ih _
    _ ≤ a := min_le_left _ _

theorem foldlMin_le_mem (l : List (ℚ × ℚ)) (a : ℚ) (e : ℚ × ℚ) (he : e ∈ l) :
    foldlMin l a ≤ e.1 := by
  induction l generalizing a with
  | nil => simp at he
  | cons x t ih =>
    rcases List.mem_cons.mp he with h | h
    · calc foldlMin (x :: t) a = foldlMin t (min a x.1) := rfl
      _ ≤ min a x.1 := foldlMin_le_init _ _
      _ ≤ x.1 := min_le_right _ _
      _ = e.1 := by rw [h]
    · exact ih _ h

theorem foldlMin_eq_init_or_mem (l : List (ℚ × ℚ)) (a : ℚ) :
    foldlMin l a = a ∨ ∃ e ∈ l, foldlMin l a = e.1 := by
  induction l generalizing a with
  | nil => exact Or.inl rfl
  | cons x t ih =>
    have hstep : foldlMin (x :: t) a = foldlMin t (min a x.1) := rfl
    rcases ih (min a x.1) with h | ⟨e, he, h⟩
    · rcases le_total a x.1 with hle | hle
      · left; rw [hstep, h, min_eq_left hle]
      · right; exact ⟨x, List.mem_cons_self _ _, by rw [hstep, h, min_eq_right hle]⟩
    · right; exact ⟨e, List.mem_cons_of_mem _ he, by rw [hstep, h]⟩

theorem foldlMax_init_le (l : List (ℚ × ℚ)) (a : ℚ) : a ≤ foldlMax l a := by
  induction l generalizing a with
  | nil => simp [foldlMax]
  | cons e t ih =>
    calc a ≤ max a e.1 := le_max_left _ _
    _ ≤ foldlMax t (max a e.1) := ih _
    _ = foldlMax (e :: t) a := rfl

theorem foldlMax_mem_le (l : List (ℚ × ℚ)) (a : ℚ) (e : ℚ × ℚ) (he : e ∈ l) :
    e.1 ≤ foldlMax l a := by
  induction l generalizing a with
  | nil => simp at he
  | cons x t ih =>
    rcases List.mem_cons.mp he with h | h
    · calc e.1 = x.1 := by rw [h]
      _ ≤ max a x.1 := le_max_right _ _
      _ ≤ foldlMax t (max a x.1) := foldlMax_init_le _ _
      _ = foldlMax (x :: t) a := rfl
    · exact ih _ h

theorem foldlMax_eq_init_or_mem (l : List (ℚ × ℚ)) (a : ℚ) :
    foldlMax l a = a ∨ ∃ e ∈ l, foldlMax l a = e.1 := by
  induction l generalizing a with
  | nil => exact Or.inl rfl
  | cons x t ih =>
    have hstep : foldlMax (x :: t) a = foldlMax t (max a x.1) := rfl
    rcases ih (max a x.1) with h | ⟨e, he, h⟩
    · rcases le_total a x.1 with hle | hle
      · right; exact ⟨x, List.mem_cons_self _ _, by rw [hstep, h, max_eq_right hle]⟩
      · left; rw [hstep, h, max_eq_left hle]
    · right; exact ⟨e, List.mem_cons_of_mem _ he, by rw [hstep, h]⟩

/-- `getBestAsk` yields the key of some stored ask entry and bounds every
stored ask key from below. -/
theorem getBestAsk_spec (b : Book) (a : ℚ) (h : OrderBook.getBestAsk b = some a) :
    (∃ e ∈ b.asks, e.1 = a) ∧ ∀ e ∈ b.asks, a ≤ e.1 := by
  unfold OrderBook.getBestAsk at h
  cases hb : b.asks with
  | nil => rw [hb] at h; cases h
  | cons x t =>
    rw [hb] at h
    have ha : a = foldlMin t x.1 := by cases h; rfl
    constructor
    · rcases foldlMin_eq_init_or_mem t x.1 with h' | ⟨e, he, h'⟩
      · exact ⟨x, List.mem_cons_self _ _, by rw [ha, h']⟩
      · exact ⟨e, List.mem_cons_of_mem _ he, by rw [ha, h']⟩
    · intro e he
      rcases List.mem_cons.mp he with h' | h'
      · rw [ha, h']; exact foldlMin_le_init _ _
      · rw [ha]; exact foldlMin_le_mem _ _ _ h'

/-- `getBestBid` yields the key of some stored bid entry and bounds every
stored bid key from above. -/
theorem getBestBid_spec (b : Book) (q : ℚ) (h : OrderBook.getBestBid b = some q) :
    (∃ e ∈ b.bids, e.1 = q) ∧ ∀ e ∈ b.bids, e.1 ≤ q := by
  unfold OrderBook.getBestBid at h
  cases hb : b.bids with
  | nil => rw [hb] at h; cases h
  | cons x t =>
    rw [hb] at h
    have hq : q = foldlMax t x.1 := by cases h; rfl
    constructor
    · rcases foldlMax_eq_init_or_mem t x.1 with h' | ⟨e, he, h'⟩
      · exact ⟨x, List.mem_cons_self _ _, by rw [hq, h']⟩
      · exact ⟨e, List.mem_cons_of_mem _ he, by rw [hq, h']⟩
    · intro e he
      rcases List.mem_cons.mp he with h' | h'
      · rw [hq, h']; exact foldlMax_init_le _ _
      · rw [hq]; exact foldlMax_mem_le _ _ _ h'

/-!
## Book invariant machinery (claims about `applyChange` / `applySnapshot`)

`applyChange` writes whatever the feed sent; nothing in the source compares
an incoming ask against the resident bids or validates the sign of a size.
The predicates below express the side conditions under which the spec's
invariants do hold.
-/

/-- Every stored ask price is at or above every stored bid price. -/
def crossFreeB (b : Book) : Bool :=
  b.asks.all (fun e => b.bids.all (fun c => decide (c.1 ≤ e.1)))

/-- A change that never crosses the resident book: a SELL upsert sits at or
above every resident bid, a BUY upsert at or below every resident ask
(deletes and foreign sides are unconstrained). -/
def stepOkB (b : Book) (c : BookChange) : Bool :=
  (if c.side = "SELL" ∧ c.size ≠ 0 then b.bids.all (fun e => decide (e.1 ≤ c.price)) else true)
    && (if c.side = "BUY" ∧ c.size ≠ 0 then b.asks.all (fun e => decide (c.price ≤ e.1)) else true)

/-- A change sequence each of whose elements is `stepOkB` for the book state
it is applied to. -/
def okSeqB : Book → List BookChange → Bool
  | _, [] => true
  | b, c :: cs => stepOkB b c && okSeqB (OrderBook.applyChange b c.price c.side c.size) cs

theorem crossFreeB_applyChange (b : Book) (c : BookChange)
    (hb : crossFreeB b = true) (hc : stepOkB b c = true) :
    crossFreeB (OrderBook.applyChange b c.price c.side c.size) = true := by
  simp only [crossFreeB, List.all_eq_true, decide_eq_true_eq] at hb ⊢
  simp only [stepOkB, Bool.and_eq_true, List.all_eq_true, decide_eq_true_eq] at hc
  unfold OrderBook.applyChange
  by_cases hs : c.side = "SELL"
  · simp only [if_pos hs]
    by_cases hz : c.size = 0
    · simp only [if_pos hz]
      intro e he cc hcc
      exact hb e (mem_mapDel _ _ _ he).1 cc hcc
    · simp only [if_neg hz]
      intro e he cc hcc
      rcases mem_mapSet _ _ _ _ he with h' | h'
      · exact hb e h' cc hcc
      · have hall := hc.1
        rw [if_pos ⟨hs, hz⟩] at hall
        have := List.all_eq_true.mp hall cc hcc
        simpa [h'] using this
  · by_cases hs' : c.side = "BUY"
    · simp only [if_neg hs, if_pos hs']
      by_cases hz : c.size = 0
      · simp only [if_pos hz]
        intro e he cc hcc
        exact hb e he cc (mem_mapDel _ _ _ hcc).1
      · simp only [if_neg hz]
        intro e he cc hcc
        rcases mem_mapSet _ _ _ _ hcc with h' | h'
        · exact hb e he cc h'
        · have hall := hc.2
          rw [if_pos ⟨hs', hz⟩] at hall
          have := List.all_eq_true.mp hall e he
          simpa [h'] using this
    · simp only [if_neg hs, if_neg hs']
      exact fun e he cc hcc => hb e he cc hcc

theorem crossFreeB_applyChanges (b : Book) (cs : List BookChange)
    (hb : crossFreeB b = true) (hcs : okSeqB b cs = true) :
    crossFreeB (OrderBook.applyChanges b cs) = true := by
  induction cs generalizing b with
  | nil => exact hb
  | cons c rest ih =>
    simp only [okSeqB, Bool.and_eq_true] at hcs
    exact ih _ (crossFreeB_applyChange b c hb hcs.1) hcs.2

/-!
## Reachable books (claim C5): ops from a fresh `OrderBook`
-/

/-- One call into the book: a full snapshot or a single change. -/
inductive BookOp where
  | snap (asks bids : List (ℚ × ℚ))
  | change (price : ℚ) (side : String) (size : ℚ)
deriving DecidableEq

def OrderBook.applyOp (b : Book) : BookOp → Book
  | .snap a bs => OrderBook.applySnapshot b a bs
  | .change p s z => OrderBook.applyChange b p s z

def OrderBook.applyOps (b : Book) (ops : List BookOp) : Book :=
  ops.foldl OrderBook.applyOp b

/-- Change sizes are nonnegative (snapshots are unconstrained: `applySnapshot`
filters sizes itself). -/
def BookOp.sizeNonneg : BookOp → Bool
  | .snap _ _ => true
  | .change _ _ z => decide (0 ≤ z)

/-- Every entry of a side has a strictly positive size. -/
def sidePos (l : List (ℚ × ℚ)) : Prop := ∀ e ∈ l, 0 < e.2

theorem sidePos_snapshotSide (entries : List (ℚ × ℚ)) :
    sidePos (OrderBook.snapshotSide entries) := by
  unfold OrderBook.snapshotSide
  have main : ∀ (l : List (ℚ × ℚ)) (acc : List (ℚ × ℚ)), sidePos acc →
      sidePos (l.foldl (fun m e => if 0 < e.2 then mapSet m e.1 e.2 else m) acc) := by
    intro l
    induction l with
    | nil => intro acc h; exact h
    | cons x t ih =>
      intro acc h
      simp only [List.foldl_cons]
      by_cases hx : 0 < x.2
      · rw [if_pos hx]
        refine ih _ ?_
        intro e he
        rcases mem_mapSet _ _ _ _ he with h' | h'
        · exact h e h'
        · rw [h']; exact hx
      · rw [if_neg hx]; exact ih _ h
  exact main entries [] (by intro e he; simp at he)

theorem sidePos_applyOp (b : Book) (op : BookOp)
    (ha : sidePos b.asks) (hb : sidePos b.bids) (hz : BookOp.sizeNonneg op = true) :
    sidePos (OrderBook.applyOp b op).asks ∧ sidePos (OrderBook.applyOp b op).bids := by
  cases op with
  | snap a bs =>
    exact ⟨sidePos_snapshotSide a, sidePos_snapshotSide bs⟩
  | change p s z =>
    simp only [BookOp.sizeNonneg, decide_eq_true_eq] at hz
    simp only [OrderBook.applyOp, OrderBook.applyChange]
    by_cases hs : s = "SELL"
    · simp only [if_pos hs]
      by_cases h0 : z = 0
      · simp only [if_pos h0]
        exact ⟨fun e he => ha e (mem_mapDel _ _ _ he).1, hb⟩
      · simp only [if_neg h0]
        refine ⟨fun e he => ?_, hb⟩
        rcases mem_mapSet _ _ _ _ he with h' | h'
        · exact ha e h'
        · rw [h']; exact lt_of_le_of_ne hz (Ne.symm h0)
    · by_cases hs' : s = "BUY"
      · simp only [if_neg hs, if_pos hs']
        by_cases h0 : z = 0
        · simp only [if_pos h0]
          exact ⟨ha, fun e he => hb e (mem_mapDel _ _ _ he).1⟩
        · simp only [if_neg h0]
          refine ⟨ha, fun e he => ?_⟩
          rcases mem_mapSet _ _ _ _ he with h' | h'
          · exact hb e h'
          · rw [h']; exact lt_of_le_of_ne hz (Ne.symm h0)
      · simp only [if_neg hs, if_neg hs']
        exact ⟨ha, hb⟩

theorem sidePos_applyOps (ops : List BookOp) (b : Book)
    (ha : sidePos b.asks) (hb : sidePos b.bids) (hz : ops.all BookOp.sizeNonneg = true) :
    sidePos (OrderBook.applyOps b ops).asks ∧ sidePos (OrderBook.applyOps b ops).bids := by
  induction ops generalizing b with
  | nil => exact ⟨ha, hb⟩
  | cons op rest ih =>
    simp only [List.all_cons, Bool.and_eq_true] at hz
    have step := sidePos_applyOp b op ha hb hz.1
    exact ih _ step.1 step.2 hz.2

/-!
## Markets (src/src/markets.ts) and the orderbook watcher
(src/src/websocket.ts, class OrderbookWatcher)
-/

/-- The `Market` interface of markets.ts. -/
structure Market where
  marketId : String
  question : String
  timeframe : String
  startAt : String
  expiresAt : String
  yesTokenId : String
  noTokenId : String
deriving DecidableEq

/-- The mutable members of an `OrderbookWatcher` that the book/price path
touches (the raw socket handle and callbacks are I/O and stay outside the
embedding). -/
structure WatcherState where
  books : List (String × Book)
  bestAsks : List (String × ℚ)
  bestBids : List (String × ℚ)
  subscribedTokens : List String
  totalUpdates : ℕ
deriving DecidableEq

/-- `OrderbookWatcher.getBestAsk`: `this.bestAsks.get(tokenId) ?? null`. -/
def OrderbookWatcher.getBestAsk (st : WatcherState) (tokenId : String) : Option ℚ :=
  mapGet st.bestAsks tokenId

/-- `OrderbookWatcher.getBestBid`: `this.bestBids.get(tokenId) ?? null`. -/
def OrderbookWatcher.getBestBid (st : WatcherState) (tokenId : String) : Option ℚ :=
  mapGet st.bestBids tokenId

/-- `OrderbookWatcher.updateBestPrices`: cache each side only when the book
currently reports one (a `null` side leaves the cached value alone), bump
`totalUpdates` and fire `onUpdate` when either side is present.  The returned
Bool is whether `onUpdate` fired. -/
def OrderbookWatcher.updateBestPrices (st : WatcherState) (tokenId : String) (book : Book) :
    WatcherState × Bool :=
  let bestAsk := OrderBook.getBestAsk book
  let bestBid := OrderBook.getBestBid book
  let st1 := { st with
    bestAsks := match bestAsk with
      | some v => mapSet st.bestAsks tokenId v
      | none => st.bestAsks
    bestBids := match bestBid with
      | some v => mapSet st.bestBids tokenId v
      | none => st.bestBids }
  if bestAsk.isSome || bestBid.isSome then
    ({ st1 with totalUpdates := st1.totalUpdates + 1 }, true)
  else (st1, false)

/-- A parsed feed frame: the two event kinds `handleMessage` acts on, plus
a constructor for any other `event_type` (ignored by the source). -/
inductive WsMessage where
  | book (assetId : String) (asks bids : List (ℚ × ℚ))
  | priceChange (assetId : String) (changes : List BookChange)
  | otherEvent (assetId : String)
deriving DecidableEq

/-- `OrderbookWatcher.handleMessage`: unknown tokens are dropped; a `book`
frame replaces the token's book by the snapshot, a `price_change` frame folds
its deltas in; both then run `updateBestPrices`. -/
def OrderbookWatcher.handleMessage (st : WatcherState) (msg : WsMessage) :
    WatcherState × Bool :=
  match msg with
  | .book tid asks bids =>
    match mapGet st.books tid with
    | none => (st, false)
    | some bk =>
      let nb := OrderBook.applySnapshot bk asks bids
      OrderbookWatcher.updateBestPrices { st with books := mapSet st.books tid nb } tid nb
  | .priceChange tid changes =>
    match mapGet st.books tid with
    | none => (st, false)
    | some bk =>
      let nb := OrderBook.applyChanges bk changes
      OrderbookWatcher.updateBestPrices { st with books := mapSet st.books tid nb } tid nb
  | .otherEvent _ => (st, false)

/-- `OrderbookWatcher.removeMarkets`: for both tokens of every market, drop
the subscription, the book and both cached best prices. -/
def OrderbookWatcher.removeMarkets (st : WatcherState) (ms : List Market) : WatcherState :=
  ms.foldl
    (fun s m =>
      [m.yesTokenId, m.noTokenId].foldl
        (fun s2 tid =>
          { books := mapDel s2.books tid
            bestAsks := mapDel s2.bestAsks tid
            bestBids := mapDel s2.bestBids tid
            subscribedTokens := s2.subscribedTokens.filter (fun t => decide (t ≠ tid))
            totalUpdates := s2.totalUpdates })
        s)
    st

/-- `OrderbookWatcher.sendSubscription` writes a single frame carrying every
id it was given: `{ assets_ids: tokenIds, type: Book }`.  The result lists
the token-id payloads of the frames written by one call. -/
def OrderbookWatcher.sendSubscription (tokenIds : List String) : List (List String) :=
  [tokenIds]

/-- The frames sent by the `open` handler of `connectOnce`: the full
subscribed set in one `sendSubscription` call, nothing when it is empty. -/
def OrderbookWatcher.onOpenFrames (subscribed : List String) : List (List String) :=
  if subscribed.isEmpty then [] else OrderbookWatcher.sendSubscription subscribed

/-- The field initialiser `private reconnectDelay = 1_000`. -/
def OrderbookWatcher.firstReconnectDelay : ℕ := 1000

/-- The `open` handler's `this.reconnectDelay = 1_000`. -/
def OrderbookWatcher.openReconnectDelay : ℕ := 1000

/-- One pass of the `connect` loop after a sleep:
`this.reconnectDelay = Math.min(this.reconnectDelay * 2, 30_000)`. -/
def OrderbookWatcher.backoffStep (d : ℕ) : ℕ := min (2 * d) 30000

/-- The delay (ms) slept before the (n+1)-th consecutive reconnect attempt
after the last successful open (or process start). -/
def OrderbookWatcher.reconnectDelayAfter : ℕ → ℕ
  | 0 => OrderbookWatcher.firstReconnectDelay
  | n + 1 => OrderbookWatcher.backoffStep (OrderbookWatcher.reconnectDelayAfter n)

/-!
## Spread detector (src/unnamed/part_001, class ArbDetector)

`config.MIN_COMBINED_THRESHOLD` (default `1.00`) and `config.MIN_ARB_TICKS`
(default `2`) are the two configuration values the detector reads.  The
`onEvent` / `onWindow` callbacks are modelled by returning the list of
records each call would have received, in call order; the `!` non-null
assertions on `stats.get` are modelled as `Option.none` (a thrown
TypeError).  `Date.now()` is the `now` argument.
-/

/-- The two config entries of src/src/config.ts the detector uses. -/
structure Config where
  MIN_COMBINED_THRESHOLD : ℚ
  MIN_ARB_TICKS : ℕ
deriving DecidableEq

/-- The defaults `parseFloat('1.00')` and `parseInt('2', 10)`. -/
def defaultConfig : Config :=
  { MIN_COMBINED_THRESHOLD := 1, MIN_ARB_TICKS := 2 }

/-- The `ArbEvent` interface. -/
structure ArbEvent where
  timestamp : ℚ
  marketId : String
  question : String
  timeframe : String
  yesAsk : ℚ
  noAsk : ℚ
  combined : ℚ
  spread : ℚ
  isArb : Bool
deriving DecidableEq

/-- The `ArbWindow` interface (the ISO strings `windowStart`/`windowEnd` keep
their millisecond values). -/
structure ArbWindow where
  windowStart : ℚ
  windowEnd : ℚ
  durationMs : ℚ
  marketId : String
  question : String
  timeframe : String
  tickCount : ℕ
  peakSpread : ℚ
  avgSpread : ℚ
  openCombined : ℚ
  closeCombined : ℚ
deriving DecidableEq

/-- The private `WindowState` interface. -/
structure WindowState where
  startTs : ℚ
  lastArbTickTs : ℚ
  openCombined : ℚ
  spreads : List ℚ
deriving DecidableEq

/-- The `MarketStats` interface. -/
structure MarketStats where
  marketId : String
  question : String
  timeframe : String
  startAt : String
  tickCount : ℕ
  windowCount : ℕ
  bestSpread : ℚ
  sumArbSpread : ℚ
  arbTickCount : ℕ
  avgWindowDurationMs : ℚ
  longestWindowMs : ℚ
  sumWindowDurationMs : ℚ
  lastArbAt : Option ℚ
  currentCombined : Option ℚ
deriving DecidableEq

/-- The four private Maps of an `ArbDetector`. -/
structure DetectorState where
  markets : List (String × Market)
  tokenToMarket : List (String × String)
  stats : List (String × MarketStats)
  windows : List (String × WindowState)
deriving DecidableEq

/-- The fresh stats record `addMarkets` installs for a new market. -/
def ArbDetector.initStats (m : Market) : MarketStats :=
  { marketId := m.marketId
    question := m.question
    timeframe := m.timeframe
    startAt := m.startAt
    tickCount := 0
    windowCount := 0
    bestSpread := 0
    sumArbSpread := 0
    arbTickCount := 0
    avgWindowDurationMs := 0
    longestWindowMs := 0
    sumWindowDurationMs := 0
    lastArbAt := none
    currentCombined := none }

/-- `ArbDetector.addMarkets`: skip known market ids, else record the market,
both token mappings and fresh stats. -/
def ArbDetector.addMarkets (st : DetectorState) (ms : List Market) : DetectorState :=
  ms.foldl
    (fun s m =>
      if (mapGet s.markets m.marketId).isSome then s
      else
        { markets := mapSet s.markets m.marketId m
          tokenToMarket :=
            mapSet (mapSet s.tokenToMarket m.yesTokenId m.marketId) m.noTokenId m.marketId
          stats := mapSet s.stats m.marketId (ArbDetector.initStats m)
          windows := s.windows })
    st

/-- `Math.max(...w.spreads)` (over the always-nonempty spread list of a
surviving window; the source's `-Infinity` for an empty spread list is not
representable and is stood in for by `0` — it needs `MIN_ARB_TICKS = 0` to
be reachable). -/
def ArbDetector.peakOf : List ℚ → ℚ
  | [] => 0
  | x :: rest => rest.foldl max x

/-- The stats mutation `closeWindow` performs when a window is folded in
(`windowCount++`, duration sums/average, longest, best spread). -/
def ArbDetector.closeStats (s : MarketStats) (durationMs peakSpread : ℚ) : MarketStats :=
  { s with
    windowCount := s.windowCount + 1
    sumWindowDurationMs := s.sumWindowDurationMs + durationMs
    avgWindowDurationMs := (s.sumWindowDurationMs + durationMs) / ((s.windowCount + 1 : ℕ) : ℚ)
    longestWindowMs := if durationMs > s.longestWindowMs then durationMs else s.longestWindowMs
    bestSpread := if peakSpread > s.bestSpread then peakSpread else s.bestSpread }

/-- The `ArbWindow` record `closeWindow` hands to `onWindow`. -/
def ArbDetector.windowRecord (w : WindowState) (marketId : String) (market : Market)
    (closeCombined : ℚ) : ArbWindow :=
  { windowStart := w.startTs
    windowEnd := w.lastArbTickTs
    durationMs := w.lastArbTickTs - w.startTs
    marketId := marketId
    question := market.question
    timeframe := market.timeframe
    tickCount := w.spreads.length
    peakSpread := ArbDetector.peakOf w.spreads
    avgSpread := (w.spreads.foldl (· + ·) 0) / (w.spreads.length : ℚ)
    openCombined := w.openCombined
    closeCombined := closeCombined }

/-- `ArbDetector.closeWindow`: drop the window; below `MIN_ARB_TICKS`
accumulated spreads nothing is emitted, otherwise fold the window into the
market's stats and emit the `ArbWindow` record through `onWindow`. -/
def ArbDetector.closeWindow (cfg : Config) (st : DetectorState) (marketId : String)
    (market : Market) (closeCombined : ℚ) : Option (DetectorState × List ArbWindow) :=
  match mapGet st.windows marketId with
  | none => some (st, [])
  | some w =>
    if w.spreads.length < cfg.MIN_ARB_TICKS then
      some ({ st with windows := mapDel st.windows marketId }, [])
    else
      match mapGet st.stats marketId with
      | none => none
      | some s =>
        some ({ st with
                  windows := mapDel st.windows marketId
                  stats := mapSet st.stats marketId
                    (ArbDetector.closeStats s (w.lastArbTickTs - w.startTs)
                      (ArbDetector.peakOf w.spreads)) },
          [ArbDetector.windowRecord w marketId market closeCombined])

/-- The per-tick stats mutation of `check` (`tickCount++`, `currentCombined`). -/
def ArbDetector.tickStats (s : MarketStats) (combined : ℚ) : MarketStats :=
  { s with tickCount := s.tickCount + 1, currentCombined := some combined }

/-- The extra stats mutation of `check` on an arbitrage tick. -/
def ArbDetector.arbStats (s : MarketStats) (now spread : ℚ) : MarketStats :=
  { s with
    lastArbAt := some now
    sumArbSpread := s.sumArbSpread + spread
    arbTickCount := s.arbTickCount + 1
    bestSpread := if spread > s.bestSpread then spread else s.bestSpread }

/-- The `ArbEvent` record `check` hands to `onEvent` on every processed tick. -/
def ArbDetector.tickEvent (now : ℚ) (marketId : String) (market : Market)
    (yesAsk noAsk : ℚ) (isArb : Bool) : ArbEvent :=
  { timestamp := now
    marketId := marketId
    question := market.question
    timeframe := market.timeframe
    yesAsk := yesAsk
    noAsk := noAsk
    combined := yesAsk + noAsk
    spread := 1 - (yesAsk + noAsk)
    isArb := isArb }

/-- `ArbDetector.check`: resolve token to market, read both best asks from
the watcher, compute `combined`/`spread`/`isArb`, bump the tick stats,
advance the window state machine, and emit the per-tick `ArbEvent`.  The
result carries (new state, `onEvent` records, `onWindow` records). -/
def ArbDetector.check (cfg : Config) (getAsk _getBid : String → Option ℚ) (now : ℚ)
    (st : DetectorState) (tokenId : String) :
    Option (DetectorState × List ArbEvent × List ArbWindow) :=
  match mapGet st.tokenToMarket tokenId with
  | none => some (st, [], [])
  | some marketId =>
    match mapGet st.markets marketId with
    | none => some (st, [], [])
    | some market =>
      match getAsk market.yesTokenId, getAsk market.noTokenId with
      | some yesAsk, some noAsk =>
        match mapGet st.stats marketId with
        | none => none
        | some s =>
          match mapGet st.windows marketId with
          | none =>
            if yesAsk + noAsk < cfg.MIN_COMBINED_THRESHOLD then
              some ({ st with
                        stats := mapSet (mapSet st.stats marketId
                            (ArbDetector.tickStats s (yesAsk + noAsk))) marketId
                          (ArbDetector.arbStats (ArbDetector.tickStats s (yesAsk + noAsk))
                            now (1 - (yesAsk + noAsk)))
                        windows := mapSet st.windows marketId
                          { startTs := now, lastArbTickTs := now
                            openCombined := yesAsk + noAsk
                            spreads := [1 - (yesAsk + noAsk)] } },
                [ArbDetector.tickEvent now marketId market yesAsk noAsk
                  (decide (yesAsk + noAsk < cfg.MIN_COMBINED_THRESHOLD))], [])
            else
              some ({ st with
                        stats := mapSet st.stats marketId
                          (ArbDetector.tickStats s (yesAsk + noAsk)) },
                [ArbDetector.tickEvent now marketId market yesAsk noAsk
                  (decide (yesAsk + noAsk < cfg.MIN_COMBINED_THRESHOLD))], [])
          | some w =>
            if yesAsk + noAsk < cfg.MIN_COMBINED_THRESHOLD then
              some ({ st with
                        stats := mapSet (mapSet st.stats marketId
                            (ArbDetector.tickStats s (yesAsk + noAsk))) marketId
                          (ArbDetector.arbStats (ArbDetector.tickStats s (yesAsk + noAsk))
                            now (1 - (yesAsk + noAsk)))
                        windows := mapSet st.windows marketId
                          { w with spreads := w.spreads ++ [1 - (yesAsk + noAsk)]
                                   lastArbTickTs := now } },
                [ArbDetector.tickEvent now marketId market yesAsk noAsk
                  (decide (yesAsk + noAsk < cfg.MIN_COMBINED_THRESHOLD))], [])
            else
              match ArbDetector.closeWindow cfg
                  { st with
                    stats := mapSet st.stats marketId (ArbDetector.tickStats s (yesAsk + noAsk)) }
                  marketId market (yesAsk + noAsk) with
              | none => none
              | some (st2, ws) =>
                some (st2,
                  [ArbDetector.tickEvent now marketId market yesAsk noAsk
                    (decide (yesAsk + noAsk < cfg.MIN_COMBINED_THRESHOLD))], ws)
      | _, _ => some (st, [], [])

/-- `ArbDetector.removeMarkets`: for each market, synthesise a close from
`stats.currentCombined ?? 1.0` when a window is live, then delete the market
from all four maps.  The result carries the `onWindow` records. -/
def ArbDetector.removeMarkets (cfg : Config) :
    DetectorState → List Market → Option (DetectorState × List ArbWindow)
  | st, [] => some (st, [])
  | st, m :: rest =>
    match (if (mapGet st.windows m.marketId).isSome then
        ArbDetector.closeWindow cfg st m.marketId m
          ((match mapGet st.stats m.marketId with
            | some s => s.currentCombined
            | none => none).getD 1)
      else some (st, [])) with
    | none => none
    | some (st1, ws) =>
      match ArbDetector.removeMarkets cfg
          { markets := mapDel st1.markets m.marketId
            stats := mapDel st1.stats m.marketId
            tokenToMarket := mapDel (mapDel st1.tokenToMarket m.yesTokenId) m.noTokenId
            windows := st1.windows } rest with
      | none => none
      | some (st3, ws2) => some (st3, ws ++ ws2)

/-- One `onUpdate` delivery: the watcher lookups the detector will perform
plus the wall clock at that tick. -/
structure TickInput where
  getAsk : String → Option ℚ
  getBid : String → Option ℚ
  now : ℚ
  tokenId : String

/-- A sequence of `check` calls, accumulating every `onEvent` and `onWindow`
record in call order. -/
def ArbDetector.runChecks (cfg : Config) :
    DetectorState → List TickInput → Option (DetectorState × List ArbEvent × List ArbWindow)
  | st, [] => some (st, [], [])
  | st, i :: rest =>
    match ArbDetector.check cfg i.getAsk i.getBid i.now st i.tokenId with
    | none => none
    | some (st1, evs, ws) =>
      match ArbDetector.runChecks cfg st1 rest with
      | none => none
      | some (st2, evs2, ws2) => some (st2, evs ++ evs2, ws ++ ws2)

/-!
## Claim theorems
-/

/-- C1.  On every tick `check` actually processes (token and market known,
both best asks cached), it computes `combined = yes_ask + no_ask`,
`spread = 1 - combined`, emits exactly one `ArbEvent` carrying them, and
flags arbitrage iff `combined` is strictly below `MIN_COMBINED_THRESHOLD`
(default `1.0`); equality with the threshold is not arbitrage. -/
theorem ArbDetector.check_classifies_arbitrage
    (cfg : Config) (gA gB : String → Option ℚ) (now : ℚ) (st : DetectorState)
    (tokenId marketId : String) (market : Market) (ya na : ℚ) (s : MarketStats)
    (h1 : mapGet st.tokenToMarket tokenId = some marketId)
    (h2 : mapGet st.markets marketId = some market)
    (h3 : gA market.yesTokenId = some ya)
    (h4 : gA market.noTokenId = some na)
    (h5 : mapGet st.stats marketId = some s) :
    (∃ st' ws, ArbDetector.check cfg gA gB now st tokenId =
        some (st',
          [{ timestamp := now, marketId := marketId, question := market.question,
             timeframe := market.timeframe, yesAsk := ya, noAsk := na,
             combined := ya + na, spread := 1 - (ya + na),
             isArb := decide (ya + na < cfg.MIN_COMBINED_THRESHOLD) }], ws))
    ∧ (decide (ya + na < cfg.MIN_COMBINED_THRESHOLD) = true ↔
        ya + na < cfg.MIN_COMBINED_THRESHOLD)
    ∧ (ya + na = cfg.MIN_COMBINED_THRESHOLD →
        decide (ya + na < cfg.MIN_COMBINED_THRESHOLD) = false)
    ∧ defaultConfig.MIN_COMBINED_THRESHOLD = 1 := by
  refine ⟨?_, by simp, fun h => by simp [h], rfl⟩
  unfold ArbDetector.check
  simp only [h1, h2, h3, h4, h5]
  cases hw : mapGet st.windows marketId with
  | none =>
    by_cases harb : ya + na < cfg.MIN_COMBINED_THRESHOLD
    · simp [hw, harb, ArbDetector.tickEvent]
    · simp [hw, harb, ArbDetector.tickEvent]
  | some w =>
    by_cases harb : ya + na < cfg.MIN_COMBINED_THRESHOLD
    · simp [hw, harb, ArbDetector.tickEvent]
    · simp only [hw, harb, decide_eq_true_eq, if_neg harb, decide_eq_false harb]
      unfold ArbDetector.closeWindow
      simp only [hw]
      by_cases hlen : w.spreads.length < cfg.MIN_ARB_TICKS
      · simp [hlen, ArbDetector.tickEvent]
      · simp [hlen, mapGet_mapSet_self, ArbDetector.tickEvent]

/-- A concrete market for witness checks. -/
def mkt1 : Market :=
  { marketId := "M", question := "q", timeframe := "5-min", startAt := "", expiresAt := ""
    yesTokenId := "Y", noTokenId := "N" }

/-- A detector that has just added `mkt1`. -/
def demoD : DetectorState := ArbDetector.addMarkets ⟨[], [], [], []⟩ [mkt1]

/-- A watcher ask cache holding `Y ↦ 2/5`, `N ↦ 1/2`. -/
def demoAsk : String → Option ℚ :=
  fun t => if t = "Y" then some (2/5) else if t = "N" then some (1/2) else none

/-- An empty watcher bid cache. -/
def demoBid : String → Option ℚ := fun _ => none

/-- Witness for C1 at `yes_ask = 2/5`, `no_ask = 1/2`. -/
theorem check_classifies_arbitrage_witness :
    (∃ st' ws, ArbDetector.check defaultConfig demoAsk demoBid 0 demoD "Y" =
        some (st',
          [{ timestamp := 0, marketId := "M", question := mkt1.question,
             timeframe := mkt1.timeframe, yesAsk := 2/5, noAsk := 1/2,
             combined := 2/5 + 1/2, spread := 1 - (2/5 + 1/2),
             isArb := decide ((2:ℚ)/5 + 1/2 < defaultConfig.MIN_COMBINED_THRESHOLD) }], ws))
    ∧ (decide ((2:ℚ)/5 + 1/2 < defaultConfig.MIN_COMBINED_THRESHOLD) = true ↔
        (2:ℚ)/5 + 1/2 < defaultConfig.MIN_COMBINED_THRESHOLD)
    ∧ ((2:ℚ)/5 + 1/2 = defaultConfig.MIN_COMBINED_THRESHOLD →
        decide ((2:ℚ)/5 + 1/2 < defaultConfig.MIN_COMBINED_THRESHOLD) = false)
    ∧ defaultConfig.MIN_COMBINED_THRESHOLD = 1 :=
  ArbDetector.check_classifies_arbitrage defaultConfig demoAsk demoBid 0 demoD
    "Y" "M" mkt1 (2/5) (1/2) (ArbDetector.initStats mkt1)
    rfl rfl rfl rfl rfl

/-- The early-return conditions of `check`: unknown token, unknown market,
or a missing best ask on either side. -/
def ArbDetector.dropsTick (getAsk : String → Option ℚ) (st : DetectorState)
    (tokenId : String) : Bool :=
  match mapGet st.tokenToMarket tokenId with
  | none => true
  | some marketId =>
    match mapGet st.markets marketId with
    | none => true
    | some market => (getAsk market.yesTokenId).isNone || (getAsk market.noTokenId).isNone

/-- C7.  A tick for an unknown token, an unknown market, or a half-hydrated
market is dropped: `check` emits no event and no window and returns the
detector state unchanged. -/
theorem ArbDetector.check_drops_unready_tick
    (cfg : Config) (gA gB : String → Option ℚ) (now : ℚ) (st : DetectorState)
    (tokenId : String) (h : ArbDetector.dropsTick gA st tokenId = true) :
    ArbDetector.check cfg gA gB now st tokenId = some (st, [], []) := by
  unfold ArbDetector.dropsTick at h
  cases htm : mapGet st.tokenToMarket tokenId with
  | none => simp [ArbDetector.check, htm]
  | some marketId =>
    cases hm : mapGet st.markets marketId with
    | none => simp [ArbDetector.check, htm, hm]
    | some market =>
      rw [htm] at h
      simp [hm] at h
      cases hy : gA market.yesTokenId with
      | none => simp [ArbDetector.check, htm, hm, hy]
      | some ya =>
        cases hn : gA market.noTokenId with
        | none => simp [ArbDetector.check, htm, hm, hy, hn]
        | some na =>
          rw [hy, hn] at h
          simp at h

/-- Witness for C7: a token the detector has never seen. -/
theorem check_drops_unready_tick_witness :
    ArbDetector.check defaultConfig demoAsk demoBid 0 demoD "ghost" =
      some (demoD, [], []) :=
  ArbDetector.check_drops_unready_tick defaultConfig demoAsk demoBid 0 demoD "ghost" rfl

theorem closeWindow_min_ticks (cfg : Config) (st : DetectorState) (marketId : String)
    (market : Market) (cc : ℚ) (st' : DetectorState) (ws : List ArbWindow)
    (h : ArbDetector.closeWindow cfg st marketId market cc = some (st', ws)) :
    ∀ w ∈ ws, cfg.MIN_ARB_TICKS ≤ w.tickCount := by
  unfold ArbDetector.closeWindow at h
  cases hw : mapGet st.windows marketId with
  | none =>
    rw [hw] at h
    simp only [Option.some.injEq, Prod.mk.injEq] at h
    rw [← h.2]
    intro w hmem
    simp at hmem
  | some w =>
    rw [hw] at h
    by_cases hlen : w.spreads.length < cfg.MIN_ARB_TICKS
    · simp only [hlen, ite_true, Option.some.injEq, Prod.mk.injEq] at h
      rw [← h.2]
      intro w' hmem
      simp at hmem
    · cases hs : mapGet st.stats marketId with
      | none => simp [hlen, hs] at h
      | some s =>
        simp only [hlen, ite_false, hs, Option.some.injEq, Prod.mk.injEq] at h
        rw [← h.2]
        intro w' hmem
        rw [List.mem_singleton] at hmem
        subst hmem
        simpa [ArbDetector.windowRecord] using Nat.le_of_not_lt hlen

theorem check_min_ticks (cfg : Config) (gA gB : String → Option ℚ) (now : ℚ)
    (st : DetectorState) (tokenId : String) (st' : DetectorState)
    (evs : List ArbEvent) (ws : List ArbWindow)
    (h : ArbDetector.check cfg gA gB now st tokenId = some (st', evs, ws)) :
    ∀ w ∈ ws, cfg.MIN_ARB_TICKS ≤ w.tickCount := by
  unfold ArbDetector.check at h
  split at h
  · simp only [Option.some.injEq, Prod.mk.injEq] at h
    rw [← h.2.2]; intro w hm; simp at hm
  · split at h
    · simp only [Option.some.injEq, Prod.mk.injEq] at h
      rw [← h.2.2]; intro w hm; simp at hm
    · split at h
      · split at h
        · cases h
        · split at h
          · split at h
            · simp only [Option.some.injEq, Prod.mk.injEq] at h
              rw [← h.2.2]; intro w hm; simp at hm
            · simp only [Option.some.injEq, Prod.mk.injEq] at h
              rw [← h.2.2]; intro w hm; simp at hm
          · split at h
            · simp only [Option.some.injEq, Prod.mk.injEq] at h
              rw [← h.2.2]; intro w hm; simp at hm
            · split at h
              · cases h
              · next st2 ws2 heq =>
                simp only [Option.some.injEq, Prod.mk.injEq] at h
                rw [← h.2.2]
                exact closeWindow_min_ticks cfg _ _ _ _ st2 ws2 heq
      · simp only [Option.some.injEq, Prod.mk.injEq] at h
        rw [← h.2.2]; intro w hm; simp at hm

theorem runChecks_min_ticks (cfg : Config) (inputs : List TickInput) :
    ∀ (st : DetectorState) (r : DetectorState × List ArbEvent × List ArbWindow),
      ArbDetector.runChecks cfg st inputs = some r →
      ∀ w ∈ r.2.2, cfg.MIN_ARB_TICKS ≤ w.tickCount := by
  induction inputs with
  | nil =>
    intro st r h
    unfold ArbDetector.runChecks at h
    simp only [Option.some.injEq] at h
    rw [← h]
    intro w hm; simp at hm
  | cons i rest ih =>
    intro st r h
    unfold ArbDetector.runChecks at h
    split at h
    · cases h
    · next st1 evs ws heq =>
      split at h
      · cases h
      · next st2 evs2 ws2 heq2 =>
        simp only [Option.some.injEq] at h
        rw [← h]
        intro w hm
        rcases List.mem_append.mp hm with hm | hm
        · exact check_min_ticks cfg i.getAsk i.getBid i.now st i.tokenId st1 evs ws heq w hm
        · exact ih st1 (st2, evs2, ws2) heq2 w hm

theorem removeMarkets_min_ticks (cfg : Config) (ms : List Market) :
    ∀ (st : DetectorState) (r : DetectorState × List ArbWindow),
      ArbDetector.removeMarkets cfg st ms = some r →
      ∀ w ∈ r.2, cfg.MIN_ARB_TICKS ≤ w.tickCount := by
  induction ms with
  | nil =>
    intro st r h
    unfold ArbDetector.removeMarkets at h
    simp only [Option.some.injEq] at h
    rw [← h]
    intro w hm; simp at hm
  | cons m rest ih =>
    intro st r h
    unfold ArbDetector.removeMarkets at h
    split at h
    · cases h
    · next st1 ws heq =>
      split at h
      · cases h
      · next st3 ws2 heq2 =>
        simp only [Option.some.injEq] at h
        rw [← h]
        intro w hm
        rcases List.mem_append.mp hm with hm | hm
        · by_cases hwin : (mapGet st.windows m.marketId).isSome
          · rw [if_pos hwin] at heq
            exact closeWindow_min_ticks cfg st m.marketId m _ st1 ws heq w hm
          · rw [if_neg hwin] at heq
            simp only [Option.some.injEq, Prod.mk.injEq] at heq
            rw [← heq.2] at hm
            simp at hm
        · exact ih _ (st3, ws2) heq2 w hm

theorem check_open_step (cfg : Config) (gA gB : String → Option ℚ) (now : ℚ)
    (st : DetectorState) (tokenId marketId : String) (market : Market)
    (ya na : ℚ) (s : MarketStats)
    (h1 : mapGet st.tokenToMarket tokenId = some marketId)
    (h2 : mapGet st.markets marketId = some market)
    (h3 : gA market.yesTokenId = some ya) (h4 : gA market.noTokenId = some na)
    (h5 : mapGet st.stats marketId = some s)
    (hw : mapGet st.windows marketId = none)
    (harb : ya + na < cfg.MIN_COMBINED_THRESHOLD) :
    ArbDetector.check cfg gA gB now st tokenId =
      some ({ st with
                stats := mapSet (mapSet st.stats marketId
                    (ArbDetector.tickStats s (ya + na))) marketId
                  (ArbDetector.arbStats (ArbDetector.tickStats s (ya + na)) now
                    (1 - (ya + na)))
                windows := mapSet st.windows marketId
                  { startTs := now, lastArbTickTs := now
                    openCombined := ya + na, spreads := [1 - (ya + na)] } },
        [ArbDetector.tickEvent now marketId market ya na
          (decide (ya + na < cfg.MIN_COMBINED_THRESHOLD))], []) := by
  unfold ArbDetector.check
  simp only [h1, h2, h3, h4, h5, hw, if_pos harb]

theorem check_close_drop (cfg : Config) (gA gB : String → Option ℚ) (now : ℚ)
    (st : DetectorState) (tokenId marketId : String) (market : Market)
    (ya na : ℚ) (s : MarketStats) (w : WindowState)
    (h1 : mapGet st.tokenToMarket tokenId = some marketId)
    (h2 : mapGet st.markets marketId = some market)
    (h3 : gA market.yesTokenId = some ya) (h4 : gA market.noTokenId = some na)
    (h5 : mapGet st.stats marketId = some s)
    (hw : mapGet st.windows marketId = some w)
    (hnarb : ¬(ya + na < cfg.MIN_COMBINED_THRESHOLD))
    (hlen : w.spreads.length < cfg.MIN_ARB_TICKS) :
    ArbDetector.check cfg gA gB now st tokenId =
      some ({ st with
                stats := mapSet st.stats marketId (ArbDetector.tickStats s (ya + na))
                windows := mapDel st.windows marketId },
        [ArbDetector.tickEvent now marketId market ya na
          (decide (ya + na < cfg.MIN_COMBINED_THRESHOLD))], []) := by
  unfold ArbDetector.check
  simp only [h1, h2, h3, h4, h5, hw, if_neg hnarb]
  unfold ArbDetector.closeWindow
  simp only [hw, if_pos hlen]

/-- C2.  Windows are surfaced through `onWindow` only after at least
`MIN_ARB_TICKS` consecutive arbitrage ticks accumulated: over any `check`
sequence and any `removeMarkets` call every surfaced window record has
`tickCount ≥ MIN_ARB_TICKS`, a single arbitrage tick followed immediately by
a non-arbitrage tick surfaces no window at all, and the default
`MIN_ARB_TICKS` is `2`. -/
theorem ArbDetector.windows_surface_only_with_min_ticks (cfg : Config) :
    (∀ st inputs r, ArbDetector.runChecks cfg st inputs = some r →
      ∀ w ∈ r.2.2, cfg.MIN_ARB_TICKS ≤ w.tickCount)
    ∧ (∀ st ms r, ArbDetector.removeMarkets cfg st ms = some r →
      ∀ w ∈ r.2, cfg.MIN_ARB_TICKS ≤ w.tickCount)
    ∧ (∀ (gA1 gB1 gA2 gB2 : String → Option ℚ) (t1 t2 : ℚ) (st : DetectorState)
        (tokenId marketId : String) (market : Market) (ya1 na1 ya2 na2 : ℚ)
        (s : MarketStats),
        2 ≤ cfg.MIN_ARB_TICKS →
        mapGet st.tokenToMarket tokenId = some marketId →
        mapGet st.markets marketId = some market →
        mapGet st.stats marketId = some s →
        mapGet st.windows marketId = none →
        gA1 market.yesTokenId = some ya1 → gA1 market.noTokenId = some na1 →
        gA2 market.yesTokenId = some ya2 → gA2 market.noTokenId = some na2 →
        ya1 + na1 < cfg.MIN_COMBINED_THRESHOLD →
        ¬(ya2 + na2 < cfg.MIN_COMBINED_THRESHOLD) →
        ∃ st2 evs, ArbDetector.runChecks cfg st
            [⟨gA1, gB1, t1, tokenId⟩, ⟨gA2, gB2, t2, tokenId⟩] = some (st2, evs, []))
    ∧ defaultConfig.MIN_ARB_TICKS = 2 := by
  refine ⟨fun st inputs r h => runChecks_min_ticks cfg inputs st r h,
    fun st ms r h => removeMarkets_min_ticks cfg ms st r h, ?_, rfl⟩
  intro gA1 gB1 gA2 gB2 t1 t2 st tokenId marketId market ya1 na1 ya2 na2 s
    hmin h1 h2 h5 hw h3 h4 h3' h4' harb1 hnarb2
  have hc1 := check_open_step cfg gA1 gB1 t1 st tokenId marketId market ya1 na1 s
    h1 h2 h3 h4 h5 hw harb1
  have hc2 := check_close_drop cfg gA2 gB2 t2
    ({ st with
        stats := mapSet (mapSet st.stats marketId
            (ArbDetector.tickStats s (ya1 + na1))) marketId
          (ArbDetector.arbStats (ArbDetector.tickStats s (ya1 + na1)) t1
            (1 - (ya1 + na1)))
        windows := mapSet st.windows marketId
          { startTs := t1, lastArbTickTs := t1
            openCombined := ya1 + na1, spreads := [1 - (ya1 + na1)] } })
    tokenId marketId market ya2 na2
    (ArbDetector.arbStats (ArbDetector.tickStats s (ya1 + na1)) t1 (1 - (ya1 + na1)))
    { startTs := t1, lastArbTickTs := t1
      openCombined := ya1 + na1, spreads := [1 - (ya1 + na1)] }
    h1 h2 h3' h4'
    (mapGet_mapSet_self _ _ _)
    (mapGet_mapSet_self _ _ _)
    hnarb2
    (by simpa using Nat.lt_of_lt_of_le Nat.one_lt_two hmin)
  simp only [ArbDetector.runChecks, hc1, hc2, List.append_nil, List.nil_append,
    List.singleton_append, Option.some.injEq, Prod.mk.injEq]
  exact ⟨_, _, rfl, rfl, trivial⟩

/-- A second ask cache where the combined ask has risen above 1. -/
def demoAsk2 : String → Option ℚ :=
  fun t => if t = "Y" then some (3/5) else if t = "N" then some (1/2) else none

/-- Witness for C2: one arbitrage tick (2/5 + 1/2) followed by a non-arbitrage
tick (3/5 + 1/2) surfaces no window under the default config. -/
theorem windows_surface_only_with_min_ticks_witness :
    ∃ st2 evs, ArbDetector.runChecks defaultConfig demoD
        [⟨demoAsk, demoBid, 0, "Y"⟩, ⟨demoAsk2, demoBid, 1, "Y"⟩] =
      some (st2, evs, []) :=
  (ArbDetector.windows_surface_only_with_min_ticks defaultConfig).2.2.1
    demoAsk demoBid demoAsk2 demoBid 0 1 demoD "Y" "M" mkt1
    (2/5) (1/2) (3/5) (1/2) (ArbDetector.initStats mkt1)
    (by decide) rfl rfl rfl rfl rfl rfl rfl rfl
    (by norm_num [defaultConfig]) (by norm_num [defaultConfig])

/-- C3.  Removing a market that holds a live window with at least
`MIN_ARB_TICKS` accumulated arbitrage ticks emits exactly one close record —
built from the stored window (`windowStart`/`windowEnd`/`openCombined`/
`tickCount`) and the last known combined value `stats.currentCombined ?? 1.0`
— and afterwards the market is gone from the `markets`, `stats`, `windows`
and token-to-market maps. -/
theorem ArbDetector.removeMarkets_synthesises_close
    (cfg : Config) (st : DetectorState) (m : Market) (w : WindowState) (s : MarketStats)
    (hw : mapGet st.windows m.marketId = some w)
    (hlen : cfg.MIN_ARB_TICKS ≤ w.spreads.length)
    (hs : mapGet st.stats m.marketId = some s)
    (htok : ∀ p ∈ st.tokenToMarket, p.2 = m.marketId →
      p.1 = m.yesTokenId ∨ p.1 = m.noTokenId) :
    ∃ st', ArbDetector.removeMarkets cfg st [m] =
        some (st', [ArbDetector.windowRecord w m.marketId m (s.currentCombined.getD 1)])
      ∧ mapGet st'.markets m.marketId = none
      ∧ mapGet st'.stats m.marketId = none
      ∧ mapGet st'.windows m.marketId = none
      ∧ ∀ p ∈ st'.tokenToMarket, p.2 ≠ m.marketId := by
  have hnl : ¬(w.spreads.length < cfg.MIN_ARB_TICKS) := Nat.not_lt.mpr hlen
  have hcw : ArbDetector.closeWindow cfg st m.marketId m (s.currentCombined.getD 1) =
      some ({ st with
                windows := mapDel st.windows m.marketId
                stats := mapSet st.stats m.marketId
                  (ArbDetector.closeStats s (w.lastArbTickTs - w.startTs)
                    (ArbDetector.peakOf w.spreads)) },
        [ArbDetector.windowRecord w m.marketId m (s.currentCombined.getD 1)]) := by
    unfold ArbDetector.closeWindow
    simp only [hw, if_neg hnl, hs]
  refine ⟨{ markets := mapDel st.markets m.marketId
            stats := mapDel (mapSet st.stats m.marketId
              (ArbDetector.closeStats s (w.lastArbTickTs - w.startTs)
                (ArbDetector.peakOf w.spreads))) m.marketId
            tokenToMarket := mapDel (mapDel st.tokenToMarket m.yesTokenId) m.noTokenId
            windows := mapDel st.windows m.marketId }, ?_, ?_, ?_, ?_, ?_⟩
  · unfold ArbDetector.removeMarkets
    simp only [hw, hs, Option.isSome_some, ite_true, hcw]
    unfold ArbDetector.removeMarkets
    simp only [Option.some.injEq, Prod.mk.injEq, List.append_nil]
  · exact mapGet_mapDel_self _ _
  · exact mapGet_mapDel_self _ _
  · exact mapGet_mapDel_self _ _
  · intro p hp
    obtain ⟨hp1, hno⟩ := mem_mapDel _ _ _ hp
    obtain ⟨hp0, hyes⟩ := mem_mapDel _ _ _ hp1
    intro hcontra
    rcases htok p hp0 hcontra with h | h
    · exact hyes h
    · exact hno h

/-- A live two-tick window for `mkt1`. -/
def demoWin : WindowState :=
  { startTs := 0, lastArbTickTs := 7, openCombined := 9/10, spreads := [1/10, 1/10] }

/-- Stats for `mkt1` whose last seen combined is 11/10. -/
def demoStats : MarketStats :=
  { ArbDetector.initStats mkt1 with currentCombined := some (11/10) }

/-- The detector of `demoD` after a two-tick window and stats were recorded. -/
def demoD2 : DetectorState :=
  { demoD with
    windows := mapSet demoD.windows "M" demoWin
    stats := mapSet demoD.stats "M" demoStats }

/-- Witness for C3 on the two-tick window of `demoD2`. -/
theorem removeMarkets_synthesises_close_witness :
    ∃ st', ArbDetector.removeMarkets defaultConfig demoD2 [mkt1] =
        some (st', [ArbDetector.windowRecord demoWin mkt1.marketId mkt1
          (demoStats.currentCombined.getD 1)])
      ∧ mapGet st'.markets mkt1.marketId = none
      ∧ mapGet st'.stats mkt1.marketId = none
      ∧ mapGet st'.windows mkt1.marketId = none
      ∧ ∀ p ∈ st'.tokenToMarket, p.2 ≠ mkt1.marketId :=
  ArbDetector.removeMarkets_synthesises_close defaultConfig demoD2 mkt1 demoWin demoStats
    rfl (by decide) rfl (by decide)

/-- An order book that took a BUY level at 2 and then a SELL level at 1:
`applyChange` stores both without any cross check. -/
def crossedBook : Book :=
  OrderBook.applyChange (OrderBook.applyChange OrderBook.empty 2 "BUY" 1) 1 "SELL" 1

/-- Counterexample to C4 as stated: after two `applyChange` calls on an empty
book the best ask (1) sits strictly below the best bid (2). -/
theorem bestAsk_below_bestBid_counterexample :
    OrderBook.getBestAsk crossedBook = some 1
    ∧ OrderBook.getBestBid crossedBook = some 2
    ∧ ¬((2:ℚ) ≤ 1) := by
  refine ⟨rfl, rfl, by decide⟩

/-- C4 (amended).  `best_ask ≥ best_bid` holds after a change sequence
provided the book starts uncrossed and no change crosses the resident book
when it is applied (every SELL upsert at or above all resident bids, every
BUY upsert at or below all resident asks); `applyChange` itself enforces
nothing. -/
theorem applyChanges_keeps_bestAsk_ge_bestBid
    (b : Book) (cs : List BookChange) (a q : ℚ)
    (hb : crossFreeB b = true) (hok : okSeqB b cs = true)
    (hA : OrderBook.getBestAsk (OrderBook.applyChanges b cs) = some a)
    (hB : OrderBook.getBestBid (OrderBook.applyChanges b cs) = some q) :
    q ≤ a := by
  have hcf := crossFreeB_applyChanges b cs hb hok
  obtain ⟨⟨e, he, hea⟩, -⟩ := getBestAsk_spec _ a hA
  obtain ⟨⟨c, hc, hcq⟩, -⟩ := getBestBid_spec _ q hB
  simp only [crossFreeB, List.all_eq_true, decide_eq_true_eq] at hcf
  calc q = c.1 := hcq.symm
  _ ≤ e.1 := hcf e he c hc
  _ = a := hea

/-- Witness for the amended C4: an uncrossed SELL then BUY on the empty book. -/
theorem applyChanges_keeps_bestAsk_ge_bestBid_witness :
    crossFreeB OrderBook.empty = true
    ∧ okSeqB OrderBook.empty [⟨3, "SELL", 1⟩, ⟨2, "BUY", 1⟩] = true
    ∧ OrderBook.getBestAsk
        (OrderBook.applyChanges OrderBook.empty [⟨3, "SELL", 1⟩, ⟨2, "BUY", 1⟩]) = some 3
    ∧ OrderBook.getBestBid
        (OrderBook.applyChanges OrderBook.empty [⟨3, "SELL", 1⟩, ⟨2, "BUY", 1⟩]) = some 2
    ∧ (2:ℚ) ≤ 3 :=
  ⟨rfl, by decide, rfl, rfl,
    applyChanges_keeps_bestAsk_ge_bestBid OrderBook.empty
      [⟨3, "SELL", 1⟩, ⟨2, "BUY", 1⟩] 3 2 rfl (by decide) rfl rfl⟩

/-- Counterexample to C5 as stated: `applyChange` only deletes on size
exactly 0, so a negative-size delta is stored as a book entry whose size is
not positive. -/
theorem negative_size_stored_counterexample :
    (OrderBook.applyChange OrderBook.empty 1 "SELL" (-1)).asks = [(1, -1)]
    ∧ ¬((0:ℚ) < -1) := by
  exact ⟨rfl, by decide⟩

/-- C5 (amended).  For every book reached from a fresh `OrderBook` by
snapshots and changes whose change sizes are nonnegative, every stored entry
has size > 0 (`applyChange` stores any nonzero size as-is, so a negative
size would violate this); and unconditionally `getBestAsk` is `none` iff the
ask side is empty and otherwise the minimum stored ask price, `getBestBid`
`none` iff the bid side is empty and otherwise the maximum stored bid
price. -/
theorem book_entries_positive_and_best_prices
    (ops : List BookOp) (hz : ops.all BookOp.sizeNonneg = true) :
    (∀ e ∈ (OrderBook.applyOps OrderBook.empty ops).asks, 0 < e.2)
    ∧ (∀ e ∈ (OrderBook.applyOps OrderBook.empty ops).bids, 0 < e.2)
    ∧ (OrderBook.getBestAsk (OrderBook.applyOps OrderBook.empty ops) = none ↔
        (OrderBook.applyOps OrderBook.empty ops).asks = [])
    ∧ (∀ a, OrderBook.getBestAsk (OrderBook.applyOps OrderBook.empty ops) = some a →
        (∃ e ∈ (OrderBook.applyOps OrderBook.empty ops).asks, e.1 = a)
        ∧ ∀ e ∈ (OrderBook.applyOps OrderBook.empty ops).asks, a ≤ e.1)
    ∧ (OrderBook.getBestBid (OrderBook.applyOps OrderBook.empty ops) = none ↔
        (OrderBook.applyOps OrderBook.empty ops).bids = [])
    ∧ (∀ q, OrderBook.getBestBid (OrderBook.applyOps OrderBook.empty ops) = some q →
        (∃ e ∈ (OrderBook.applyOps OrderBook.empty ops).bids, e.1 = q)
        ∧ ∀ e ∈ (OrderBook.applyOps OrderBook.empty ops).bids, e.1 ≤ q) := by
  have hpos := sidePos_applyOps ops OrderBook.empty
    (by intro e he; simp [OrderBook.empty] at he)
    (by intro e he; simp [OrderBook.empty] at he) hz
  refine ⟨hpos.1, hpos.2, ?_, ?_, ?_, ?_⟩
  · unfold OrderBook.getBestAsk
    cases hb : (OrderBook.applyOps OrderBook.empty ops).asks <;> simp
  · exact fun a ha => getBestAsk_spec _ a ha
  · unfold OrderBook.getBestBid
    cases hb : (OrderBook.applyOps OrderBook.empty ops).bids <;> simp
  · exact fun q hq => getBestBid_spec _ q hq

/-- A snapshot followed by two nonnegative changes. -/
def demoOps : List BookOp :=
  [BookOp.snap [(3, 1), (4, 0)] [(2, 1)], BookOp.change 5 "SELL" 2, BookOp.change 2 "BUY" 0]

/-- Witness for the amended C5 on `demoOps` (the zero-size snapshot entry is
filtered, the zero-size change deletes the bid level). -/
theorem book_entries_positive_and_best_prices_witness :
    demoOps.all BookOp.sizeNonneg = true
    ∧ ((∀ e ∈ (OrderBook.applyOps OrderBook.empty demoOps).asks, 0 < e.2)
      ∧ (∀ e ∈ (OrderBook.applyOps OrderBook.empty demoOps).bids, 0 < e.2)
      ∧ (OrderBook.getBestAsk (OrderBook.applyOps OrderBook.empty demoOps) = none ↔
          (OrderBook.applyOps OrderBook.empty demoOps).asks = [])
      ∧ (∀ a, OrderBook.getBestAsk (OrderBook.applyOps OrderBook.empty demoOps) = some a →
          (∃ e ∈ (OrderBook.applyOps OrderBook.empty demoOps).asks, e.1 = a)
          ∧ ∀ e ∈ (OrderBook.applyOps OrderBook.empty demoOps).asks, a ≤ e.1)
      ∧ (OrderBook.getBestBid (OrderBook.applyOps OrderBook.empty demoOps) = none ↔
          (OrderBook.applyOps OrderBook.empty demoOps).bids = [])
      ∧ (∀ q, OrderBook.getBestBid (OrderBook.applyOps OrderBook.empty demoOps) = some q →
          (∃ e ∈ (OrderBook.applyOps OrderBook.empty demoOps).bids, e.1 = q)
          ∧ ∀ e ∈ (OrderBook.applyOps OrderBook.empty demoOps).bids, e.1 ≤ q)) :=
  ⟨by decide, book_entries_positive_and_best_prices demoOps (by decide)⟩

/-- C6.  `applySnapshot` clears both sides before inserting, so snapshot `b`,
any change sequence `Δ`, then snapshot `b'` leaves exactly the state that
snapshot `b'` alone produces on a fresh book, whatever `Δ` was. -/
theorem applySnapshot_resets_book_state
    (b0 : Book) (asks bids : List (ℚ × ℚ)) (Δ : List BookChange)
    (asks' bids' : List (ℚ × ℚ)) :
    OrderBook.applySnapshot
        (OrderBook.applyChanges (OrderBook.applySnapshot b0 asks bids) Δ) asks' bids'
      = OrderBook.applySnapshot OrderBook.empty asks' bids' := rfl

/-- Counterexample to C8 as stated: the source initialises `reconnectDelay`
to 1000 ms and resets it to 1000 ms on open — not 100 ms. -/
theorem reconnectDelay_not_100ms_counterexample :
    OrderbookWatcher.reconnectDelayAfter 0 = 1000
    ∧ OrderbookWatcher.openReconnectDelay = 1000
    ∧ OrderbookWatcher.reconnectDelayAfter 0 ≠ 100
    ∧ OrderbookWatcher.openReconnectDelay ≠ 100 := by
  exact ⟨rfl, rfl, by decide, by decide⟩

/-- C8 (amended).  The reconnect delay starts at 1000 ms, doubles after each
attempt up to the 30 000 ms cap — the delay before the (n+1)-th consecutive
attempt is `min (1000·2^n) 30000` — and a successful open resets it to
1000 ms. -/
theorem reconnect_backoff_doubles_to_cap (n : ℕ) :
    OrderbookWatcher.reconnectDelayAfter n = min (1000 * 2 ^ n) 30000
    ∧ OrderbookWatcher.reconnectDelayAfter n ≤ 30000
    ∧ OrderbookWatcher.firstReconnectDelay = 1000
    ∧ OrderbookWatcher.openReconnectDelay = 1000 := by
  have hmain : ∀ k : ℕ, OrderbookWatcher.reconnectDelayAfter k = min (1000 * 2 ^ k) 30000 := by
    intro k
    induction k with
    | zero => decide
    | succ k ih =>
      have h2 : 1000 * 2 ^ (k + 1) = 2 * (1000 * 2 ^ k) := by ring
      rw [OrderbookWatcher.reconnectDelayAfter, ih, h2, OrderbookWatcher.backoffStep]
      omega
  refine ⟨hmain n, ?_, rfl, rfl⟩
  rw [hmain n]
  omega

/-- 501 distinct token identifiers. -/
def tokens501 : List String := (List.range 501).map toString

/-- Counterexample to C9 as stated: with 501 watched tokens the `open`
handler sends a single frame carrying all 501 identifiers — more than the
claimed 500-per-frame cap. -/
theorem subscription_frame_over_500_counterexample :
    OrderbookWatcher.onOpenFrames tokens501 = [tokens501]
    ∧ tokens501.length = 501
    ∧ ¬(tokens501.length ≤ 500) := by
  have hne : ¬(tokens501.isEmpty = true) := by simp [tokens501]
  refine ⟨?_, ?_, ?_⟩
  · unfold OrderbookWatcher.onOpenFrames
    rw [if_neg hne]
    rfl
  · simp [tokens501]
  · simp [tokens501]

/-- C9 (amended).  On connect the watcher sends exactly one subscription
frame carrying the full watched token set (no frame when the set is empty);
`sendSubscription` performs no chunking, so a frame may exceed 500
identifiers. -/
theorem onOpenFrames_single_full_frame (ts : List String) :
    (OrderbookWatcher.onOpenFrames ts).flatten = ts
    ∧ (OrderbookWatcher.onOpenFrames ts).length ≤ 1 := by
  unfold OrderbookWatcher.onOpenFrames OrderbookWatcher.sendSubscription
  by_cases h : ts.isEmpty
  · rw [if_pos h]
    exact ⟨(List.isEmpty_iff.mp h).symm, by simp⟩
  · rw [if_neg h]
    exact ⟨by simp, by simp⟩

theorem mapGet_doubleDel {K : Type u} {V : Type v} [DecidableEq K]
    (l : List (K × V)) (k1 k2 t : K) (h : t = k1 ∨ t = k2) :
    mapGet (mapDel (mapDel l k1) k2) t = none := by
  rcases h with h | h
  · subst h
    by_cases hk : k2 = t
    · subst hk; exact mapGet_mapDel_self _ _
    · rw [mapGet_mapDel_ne _ _ _ (fun hh => hk hh)]
      exact mapGet_mapDel_self _ _
  · subst h; exact mapGet_mapDel_self _ _

/-- C10.  `updateBestPrices` never clears a cached best price: when the new
book state has no ask (resp. bid), the previously cached value keeps being
returned — also through `handleMessage` with a snapshot whose ask side is
empty — and the cache entry disappears only when `removeMarkets` drops the
token. -/
theorem OrderbookWatcher.best_price_cache_is_sticky
    (st : WatcherState) (t : String) (v : ℚ) (b : Book) (m : Market) :
    (mapGet st.bestAsks t = some v → OrderBook.getBestAsk b = none →
      OrderbookWatcher.getBestAsk (OrderbookWatcher.updateBestPrices st t b).1 t = some v)
    ∧ (mapGet st.bestBids t = some v → OrderBook.getBestBid b = none →
      OrderbookWatcher.getBestBid (OrderbookWatcher.updateBestPrices st t b).1 t = some v)
    ∧ ((mapGet st.books t).isSome → mapGet st.bestAsks t = some v →
      OrderbookWatcher.getBestAsk
        (OrderbookWatcher.handleMessage st (WsMessage.book t [] [])).1 t = some v)
    ∧ ((t = m.yesTokenId ∨ t = m.noTokenId) →
      OrderbookWatcher.getBestAsk (OrderbookWatcher.removeMarkets st [m]) t = none
      ∧ OrderbookWatcher.getBestBid (OrderbookWatcher.removeMarkets st [m]) t = none) := by
  refine ⟨?_, ?_, ?_, ?_⟩
  · intro hA hno
    simp only [OrderbookWatcher.updateBestPrices, OrderbookWatcher.getBestAsk, hno]
    split <;> exact hA
  · intro hB hno
    simp only [OrderbookWatcher.updateBestPrices, OrderbookWatcher.getBestBid, hno]
    split <;> exact hB
  · intro hbk hA
    obtain ⟨bk, hbk'⟩ := Option.isSome_iff_exists.mp hbk
    simp only [OrderbookWatcher.handleMessage, hbk']
    have hno : OrderBook.getBestAsk (OrderBook.applySnapshot bk [] []) = none := rfl
    simp only [OrderbookWatcher.updateBestPrices, OrderbookWatcher.getBestAsk, hno]
    split <;> exact hA
  · intro ht
    exact ⟨mapGet_doubleDel st.bestAsks m.yesTokenId m.noTokenId t ht,
      mapGet_doubleDel st.bestBids m.yesTokenId m.noTokenId t ht⟩

/-- A watcher caching ask 5 and bid 3 for token `Y`. -/
def demoW : WatcherState :=
  { books := [("Y", OrderBook.empty)], bestAsks := [("Y", 5)], bestBids := [("Y", 3)]
    subscribedTokens := ["Y"], totalUpdates := 0 }

/-- Witness for C10: an empty-book update keeps `Y`'s cached ask 5 and bid 3;
removing `mkt1` (whose yes-token is `Y`) clears them. -/
theorem best_price_cache_is_sticky_witness :
    (OrderbookWatcher.getBestAsk
        (OrderbookWatcher.updateBestPrices demoW "Y" OrderBook.empty).1 "Y" = some 5)
    ∧ (OrderbookWatcher.getBestBid
        (OrderbookWatcher.updateBestPrices demoW "Y" OrderBook.empty).1 "Y" = some 3)
    ∧ (OrderbookWatcher.getBestAsk
        (OrderbookWatcher.handleMessage demoW (WsMessage.book "Y" [] [])).1 "Y" = some 5)
    ∧ (OrderbookWatcher.getBestAsk (OrderbookWatcher.removeMarkets demoW [mkt1]) "Y" = none) :=
  ⟨(OrderbookWatcher.best_price_cache_is_sticky demoW "Y" 5 OrderBook.empty mkt1).1 rfl rfl,
   (OrderbookWatcher.best_price_cache_is_sticky demoW "Y" 3 OrderBook.empty mkt1).2.1 rfl rfl,
   (OrderbookWatcher.best_price_cache_is_sticky demoW "Y" 5 OrderBook.empty mkt1).2.2.1
     rfl rfl,
   ((OrderbookWatcher.best_price_cache_is_sticky demoW "Y" 5 OrderBook.empty mkt1).2.2.2
     (Or.inl rfl)).1⟩
